import Mathlib

/-!
Shallow embedding of `src/homing/homing_drone_controller.py`
(GPSFreeLocalisation, honours project): the `Direction` enum, the motion
commands issued by `fly_direction`, the nine-point sampling procedure, the
RSSI averaging, and the two homing loops (`basic_homing`, `ranged_homing`).

Signal scores ("RSSI magnitudes") are modelled as rationals; the agent's
position is a pair of rationals `(x, y)` where `forward` increases `y`,
`back` decreases `y`, `right` increases `x` and `left` decreases `x`.
External effects (the Bluetooth RSSI sensor and the random generator) are
modelled as oracles: a function from the index of the `get_average_rssi`
call to its returned score, and a function from the index of the `randint`
call to its value.
-/

namespace Homing

/-- The `Direction` enum of `homing_drone_controller.py` (lines 17-27). -/
inductive Direction where
  | NORTH
  | NORTH_EAST
  | EAST
  | SOUTH_EAST
  | SOUTH
  | SOUTH_WEST
  | WEST
  | NORTH_WEST
  | LAND
  | NONE
deriving DecidableEq, Fintype

/-- The integer value of each enum member (`Direction.NORTH = 1`, ...,
`Direction.NORTH_WEST = 8`, `Direction.LAND = 9`, `Direction.NONE = 0`). -/
def Direction.value : Direction → ℕ
  | .NORTH => 1
  | .NORTH_EAST => 2
  | .EAST => 3
  | .SOUTH_EAST => 4
  | .SOUTH => 5
  | .SOUTH_WEST => 6
  | .WEST => 7
  | .NORTH_WEST => 8
  | .LAND => 9
  | .NONE => 0

/-- The enum constructor `Direction(n)` for `n` in `0..9`.  Python raises
`ValueError` outside that range; the only call sites in the source apply it
to `(value + 4) % 8`, which is always `< 8`, so the catch-all case is
unreachable there. -/
def Direction.ofValue : ℕ → Direction
  | 1 => .NORTH
  | 2 => .NORTH_EAST
  | 3 => .EAST
  | 4 => .SOUTH_EAST
  | 5 => .SOUTH
  | 6 => .SOUTH_WEST
  | 7 => .WEST
  | 8 => .NORTH_WEST
  | 9 => .LAND
  | _ => .NONE

/-- The `.name` attribute of each enum member, a Python string. -/
def Direction.name : Direction → String
  | .NORTH => "NORTH"
  | .NORTH_EAST => "NORTH_EAST"
  | .EAST => "EAST"
  | .SOUTH_EAST => "SOUTH_EAST"
  | .SOUTH => "SOUTH"
  | .SOUTH_WEST => "SOUTH_WEST"
  | .WEST => "WEST"
  | .NORTH_WEST => "NORTH_WEST"
  | .LAND => "LAND"
  | .NONE => "NONE"

/-- A direction is one of the eight compass points (not a sentinel). -/
def isCompass (d : Direction) : Prop := d ≠ Direction.NONE ∧ d ≠ Direction.LAND

instance (d : Direction) : Decidable (isCompass d) := by
  unfold isCompass; infer_instance

/-- The reverse-direction computation the homing loops inline:
`Direction((previous_direction.value + 4) % 8)`
(lines 272, 314 and 354 of the source). -/
def reverseDirection (d : Direction) : Direction :=
  Direction.ofValue ((d.value + 4) % 8)

/-- Modelled from the spec: the correct opposite compass direction, "the
point four positions away, wrapping" on the 8-point wheel. -/
def oppositeSpec : Direction → Direction
  | .NORTH => .SOUTH
  | .NORTH_EAST => .SOUTH_WEST
  | .EAST => .WEST
  | .SOUTH_EAST => .NORTH_WEST
  | .SOUTH => .NORTH
  | .SOUTH_WEST => .NORTH_EAST
  | .WEST => .EAST
  | .NORTH_WEST => .SOUTH_EAST
  | .LAND => .LAND
  | .NONE => .NONE

/-- A motion-commander command, as issued by `fly_direction` and
`nine_point_sample`. -/
inductive Cmd where
  | forward (d : ℚ)
  | back (d : ℚ)
  | left (d : ℚ)
  | right (d : ℚ)
deriving DecidableEq

/-- The displacement a single motion command produces. -/
def applyCmd (p : ℚ × ℚ) : Cmd → ℚ × ℚ
  | .forward d => (p.1, p.2 + d)
  | .back d => (p.1, p.2 - d)
  | .left d => (p.1 - d, p.2)
  | .right d => (p.1 + d, p.2)

/-- Running a list of motion commands from a position. -/
def applyCmds (l : List Cmd) (p : ℚ × ℚ) : ℚ × ℚ := l.foldl applyCmd p

/-- The value passed as the `direction` argument of `fly_direction`: either
a `Direction` enum member, or a Python string (the loops pass
`Direction(randint(1,8)).name`, a string, at the random-fallback site). -/
inductive FlyArg where
  | dir (d : Direction)
  | str (s : String)
deriving DecidableEq

/-- Python `==` between the argument and an enum member: enum equality is
by identity, and comparing a string with an enum member is `False` (no
exception is raised). -/
def flyArgEq (a : FlyArg) (d : Direction) : Bool :=
  match a with
  | .dir e => e = d
  | .str _ => false

/-- The motion commands `fly_direction` issues (lines 193-217): an
`if`/`elif` chain over the eight compass members; any other argument falls
through and issues no command. -/
def flyDirectionCmds (a : FlyArg) (jumpDistance : ℚ) : List Cmd :=
  if flyArgEq a .NORTH then [.forward jumpDistance]
  else if flyArgEq a .NORTH_EAST then [.forward jumpDistance, .right jumpDistance]
  else if flyArgEq a .EAST then [.right jumpDistance]
  else if flyArgEq a .SOUTH_EAST then [.back jumpDistance, .right jumpDistance]
  else if flyArgEq a .SOUTH then [.back jumpDistance]
  else if flyArgEq a .SOUTH_WEST then [.back jumpDistance, .left jumpDistance]
  else if flyArgEq a .WEST then [.left jumpDistance]
  else if flyArgEq a .NORTH_WEST then [.forward jumpDistance, .left jumpDistance]
  else []

/-! ### RSSI sampling (`get_drone_rssi`, `get_average_rssi`) -/

/-- The running-sum loop of `get_average_rssi` (lines 96-98) over total
readings: `sumAbs readings k` is the value of `sum` after `k` iterations,
each adding `abs(rssi)` of the next reading. -/
def sumAbs (readings : ℕ → ℚ) : ℕ → ℚ
  | 0 => 0
  | k + 1 => sumAbs readings k + |readings k|

/-- `get_average_rssi` (lines 92-102) when every reading is available:
accumulate the absolute values of `numSamples` readings, then divide by
`numSamples` only when the sum is nonzero, else return the initial 0. -/
def getAverageRssi (readings : ℕ → ℚ) (numSamples : ℕ) : ℚ :=
  let s := sumAbs readings numSamples
  if s ≠ 0 then s / numSamples else 0

/-- Python `abs` applied to the result of `get_drone_rssi`, which is
`None` when no discovered device matches the drone's Bluetooth address
(lines 83-90): `abs(None)` raises `TypeError`, modelled as `Except.error`. -/
def absOpt : Option ℚ → Except Unit ℚ
  | some v => Except.ok |v|
  | none => Except.error ()

/-- The running-sum loop of `get_average_rssi` over possibly-missing
readings: the first unavailable reading aborts the whole computation with
the `TypeError` that `abs(None)` raises. -/
def sumAbsOpt (readings : ℕ → Option ℚ) : ℕ → Except Unit ℚ
  | 0 => Except.ok 0
  | k + 1 =>
    match sumAbsOpt readings k with
    | Except.error e => Except.error e
    | Except.ok s =>
      match absOpt (readings k) with
      | Except.error e => Except.error e
      | Except.ok a => Except.ok (s + a)

/-- `get_average_rssi` over possibly-missing readings. -/
def getAverageRssiOpt (readings : ℕ → Option ℚ) (numSamples : ℕ) : Except Unit ℚ :=
  match sumAbsOpt readings numSamples with
  | Except.error e => Except.error e
  | Except.ok s => Except.ok (if s ≠ 0 then s / numSamples else 0)

/-! ### Nine-point sampling (`nine_point_sample`, lines 107-190)

The score part is a pure function of the centre score and the eight
neighbour scores (each neighbour score is the `get_average_rssi` result
taken after the corresponding move); the movement part is the fixed list
of eight motion commands the procedure issues. -/

/-- One `if rssi < best` update step of `nine_point_sample`: the
accumulator is the pair (best signal strength, best signal direction). -/
def npsStep (acc : ℚ × Direction) (p : ℚ × Direction) : ℚ × Direction :=
  if p.1 < acc.1 then p else acc

/-- The compass direction associated with the i-th sample of the
traversal: N, NE, E, SE, S, SW, W, NW. -/
def dirIdx : Fin 8 → Direction :=
  ![.NORTH, .NORTH_EAST, .EAST, .SOUTH_EAST, .SOUTH, .SOUTH_WEST, .WEST, .NORTH_WEST]

/-- The seven (score, direction) comparison candidates that follow the
seeding NORTH sample, in traversal order. -/
def npsPairs (s : Fin 8 → ℚ) : List (ℚ × Direction) :=
  [(s 1, .NORTH_EAST), (s 2, .EAST), (s 3, .SOUTH_EAST), (s 4, .SOUTH),
   (s 5, .SOUTH_WEST), (s 6, .WEST), (s 7, .NORTH_WEST)]

/-- The final (best signal strength, best signal direction) accumulator of
`nine_point_sample`: seeded with the NORTH sample, then updated by the
seven strict comparisons. -/
def bestOf (s : Fin 8 → ℚ) : ℚ × Direction :=
  (npsPairs s).foldl npsStep (s 0, Direction.NORTH)

/-- The return value of `nine_point_sample` given the centre score
(`current_position`, measured before any move) and the eight neighbour
scores in traversal order: the tracked best direction if its score beats
the centre score strictly, else `Direction.NONE` (lines 186-190). -/
def ninePointSample (center : ℚ) (s : Fin 8 → ℚ) : Direction :=
  if (bestOf s).1 < center then (bestOf s).2 else Direction.NONE

/-- The eight motion commands `nine_point_sample` issues, in source order
(lines 123, 131, 139, 147, 155, 163, 171, 179): forward, right, back,
back, left, left, forward, forward, each of `jump_distance`. -/
def ninePointMoves (jumpDistance : ℚ) : List Cmd :=
  [.forward jumpDistance, .right jumpDistance, .back jumpDistance, .back jumpDistance,
   .left jumpDistance, .left jumpDistance, .forward jumpDistance, .forward jumpDistance]

/-- The successive positions reached after each of the eight moves of the
traversal, starting from centre `p` (the centre itself is not revisited). -/
def ninePointPositions (jumpDistance : ℚ) (p : ℚ × ℚ) : List (ℚ × ℚ) :=
  (((ninePointMoves jumpDistance).scanl applyCmd p).tail)

/-- The net displacement of the whole traversal: where the agent ends up
after `nine_point_sample` returns. -/
def ninePointDrift (jumpDistance : ℚ) (p : ℚ × ℚ) : ℚ × ℚ :=
  applyCmds (ninePointMoves jumpDistance) p

/-! ### The homing loops (`basic_homing`, lines 221-285; `ranged_homing`,
lines 287-367)

Both loops interact with the world only through `get_average_rssi` calls,
motion commands and `randint(1,8)`; an `Env` gives the oracle answer of
the i-th `get_average_rssi` call and the i-th `randint` call. -/

/-- The external world: `rssi i` is the score returned by the i-th
`get_average_rssi` call of the run; `rand i` (plus one) is the value
returned by the i-th `randint(1,8)` call. -/
structure Env where
  rssi : ℕ → ℚ
  rand : ℕ → Fin 8

/-- The loop-visible state of a homing run: the agent's position, the
tracking variables of the loop, and the two oracle cursors. -/
structure HomingState where
  pos : ℚ × ℚ
  prevDir : Direction
  numMoves : ℕ
  numNinePointSamples : ℕ
  calls : ℕ
  randCalls : ℕ
deriving DecidableEq

/-- Running `nine_point_sample` from a state: it makes nine
`get_average_rssi` calls (the centre, then the eight neighbours in
traversal order) and leaves the agent at the drift end of the traversal. -/
def ninePointRun (rssi : ℕ → ℚ) (jumpDistance : ℚ) (st : HomingState) :
    Direction × HomingState :=
  (ninePointSample (rssi st.calls) (fun i => rssi (st.calls + 1 + i.val)),
   { st with pos := ninePointDrift jumpDistance st.pos, calls := st.calls + 9 })

/-- One iteration of the shared loop body (after the landing check), given
the step size of this iteration and `current_rssi` measured at the top:
explore via `nine_point_sample` when `previous_direction` is `NONE`
(falling back to `Direction(randint(1,8)).name` — a string — when the
sample returns `NONE`), otherwise exploit `previous_direction` and undo
via `Direction((value + 4) % 8)` on regression (lines 244-278, 326-360). -/
def homingIter (env : Env) (jumpDistance : ℚ) (st : HomingState)
    (currentRssi : ℚ) : HomingState :=
  if st.prevDir = Direction.NONE then
    let res := ninePointRun env.rssi jumpDistance st
    let best := res.1
    let st1 := { res.2 with numNinePointSamples := res.2.numNinePointSamples + 1 }
    if best = Direction.NONE then
      let randomDirection := FlyArg.str (Direction.ofValue ((env.rand st1.randCalls).val + 1)).name
      { st1 with
          pos := applyCmds (flyDirectionCmds randomDirection jumpDistance) st1.pos
          numMoves := st1.numMoves + 1
          randCalls := st1.randCalls + 1 }
    else
      { st1 with
          pos := applyCmds (flyDirectionCmds (FlyArg.dir best) jumpDistance) st1.pos
          prevDir := best
          numMoves := st1.numMoves + 1 }
  else
    let st1 := { st with
      pos := applyCmds (flyDirectionCmds (FlyArg.dir st.prevDir) jumpDistance) st.pos }
    let newRssi := env.rssi st1.calls
    let st2 := { st1 with calls := st1.calls + 1 }
    if newRssi > currentRssi then
      { st2 with
          pos := applyCmds
            (flyDirectionCmds (FlyArg.dir (reverseDirection st.prevDir)) jumpDistance) st2.pos
          prevDir := Direction.NONE }
    else
      { st2 with numMoves := st2.numMoves + 1 }

/-- The iteration body of `basic_homing`, whose `jump_distance` is the
fixed `0.5` (line 229). -/
def basicIter (env : Env) (st : HomingState) (currentRssi : ℚ) : HomingState :=
  homingIter env (1/2) st currentRssi

/-- The two terminal outcomes of a homing loop: the landing-threshold
break (close enough to the beacon) and falling out of the
`while num_moves < 20` condition. -/
inductive Outcome where
  | arrived
  | exhausted
deriving DecidableEq

/-- The `while num_moves < 20` loop of `basic_homing` (lines 235-278),
with explicit fuel (`none` means the fuel ran out before the loop
exited).  Each iteration first measures `current_rssi`, breaks when it is
at most the landing threshold 30, and otherwise runs the shared body. -/
def basicLoop (env : Env) : ℕ → HomingState → Option (Outcome × HomingState)
  | 0, _ => none
  | fuel + 1, st =>
    if st.numMoves < 20 then
      let currentRssi := env.rssi st.calls
      let st1 := { st with calls := st.calls + 1 }
      if currentRssi ≤ 30 then some (Outcome.arrived, st1)
      else basicLoop env fuel (basicIter env st1 currentRssi)
    else some (Outcome.exhausted, st)

/-- The fine-approach inner `while previous_direction != Direction.NONE`
loop of `ranged_homing` (lines 306-318), entered when `current_rssi` (the
`entryRssi` argument) is at most the landing threshold: repeat one
0.1-unit step in `previous_direction`, re-measure, commit (`num_moves +=
1`) and continue when the new score improves on `entryRssi`, else fly the
computed reverse direction once and break.  Fuel-indexed because the
source loop need not terminate. -/
def fineApproach (rssi : ℕ → ℚ) (entryRssi : ℚ) :
    ℕ → HomingState → Option HomingState
  | 0, _ => none
  | fuel + 1, st =>
    if st.prevDir = Direction.NONE then some st
    else
      let st1 := { st with
        pos := applyCmds (flyDirectionCmds (FlyArg.dir st.prevDir) (1/10)) st.pos }
      let tempRssi := rssi st1.calls
      let st2 := { st1 with calls := st1.calls + 1 }
      if tempRssi < entryRssi then
        fineApproach rssi entryRssi fuel { st2 with numMoves := st2.numMoves + 1 }
      else
        some { st2 with
          pos := applyCmds
            (flyDirectionCmds (FlyArg.dir (reverseDirection st.prevDir)) (1/10)) st2.pos }

/-- The iteration body of `ranged_homing`: the step size is `1.5` when
`current_rssi > 55` and `0.5` otherwise (lines 321-324), then the shared
body runs. -/
def rangedIter (env : Env) (st : HomingState) (currentRssi : ℚ) : HomingState :=
  homingIter env (if currentRssi > 55 then 3/2 else 1/2) st currentRssi

/-- The `while num_moves < 20` loop of `ranged_homing` (lines 300-360):
when the top-of-iteration score reaches the landing threshold the loop
runs the fine-approach sub-phase (with its own fuel) and then breaks. -/
def rangedLoop (env : Env) (innerFuel : ℕ) :
    ℕ → HomingState → Option (Outcome × HomingState)
  | 0, _ => none
  | fuel + 1, st =>
    if st.numMoves < 20 then
      let currentRssi := env.rssi st.calls
      let st1 := { st with calls := st.calls + 1 }
      if currentRssi ≤ 30 then
        match fineApproach env.rssi currentRssi innerFuel st1 with
        | some st2 => some (Outcome.arrived, st2)
        | none => none
      else rangedLoop env innerFuel fuel (rangedIter env st1 currentRssi)
    else some (Outcome.exhausted, st)

/-- The termination measure of the fixed-step loop: an iteration either
commits a move or clears `previous_direction`, so this strictly drops. -/
def stepMeasure (st : HomingState) : ℕ :=
  2 * (20 - st.numMoves) + (if st.prevDir = Direction.NONE then 0 else 1)

/-! ## Theorems -/

/-! ### C2: the reverse-direction formula -/

/-- C2 (amended): `Direction((d.value + 4) % 8)` computes the correct
opposite (four positions away, wrapping) for the seven compass directions
other than `SOUTH_EAST`, and yields the `NONE` sentinel for `SOUTH_EAST`
itself (whose true opposite is `NORTH_WEST`); consequently the round trip
`reverse (reverse d) = d` holds for the seven compass directions other
than `NORTH_WEST` — including `SOUTH_EAST`, since the formula maps `NONE`
back to `SOUTH_EAST` — and fails exactly at `NORTH_WEST`, where the round
trip lands on `NONE`. -/
theorem reverse_direction_spec :
    (∀ d, isCompass d → d ≠ Direction.SOUTH_EAST → reverseDirection d = oppositeSpec d) ∧
    reverseDirection Direction.SOUTH_EAST = Direction.NONE ∧
    oppositeSpec Direction.SOUTH_EAST = Direction.NORTH_WEST ∧
    (∀ d, isCompass d → d ≠ Direction.NORTH_WEST →
      reverseDirection (reverseDirection d) = d) ∧
    reverseDirection (reverseDirection Direction.NORTH_WEST) = Direction.NONE := by
  refine ⟨?_, by decide, by decide, ?_, by decide⟩ <;> decide

/-- Witness for C2's amended theorem at `d = NORTH`. -/
theorem reverse_direction_spec_witness :
    reverseDirection Direction.NORTH = oppositeSpec Direction.NORTH ∧
    reverseDirection (reverseDirection Direction.NORTH) = Direction.NORTH :=
  ⟨reverse_direction_spec.1 Direction.NORTH (by decide) (by decide),
   reverse_direction_spec.2.2.2.1 Direction.NORTH (by decide) (by decide)⟩

/-- Counterexample for C2 as stated: the round trip
`reverse (reverse d) = d` in fact HOLDS at `SOUTH_EAST` (the direction the
claim names as the asymmetry, because the formula sends `NONE` back to
`SOUTH_EAST`), and the direction at which the round trip fails is
`NORTH_WEST`, a compass direction distinct from `SOUTH_EAST`. -/
theorem reverse_direction_roundtrip_counterexample :
    reverseDirection (reverseDirection Direction.SOUTH_EAST) = Direction.SOUTH_EAST ∧
    reverseDirection (reverseDirection Direction.NORTH_WEST) ≠ Direction.NORTH_WEST ∧
    isCompass Direction.NORTH_WEST ∧ Direction.NORTH_WEST ≠ Direction.SOUTH_EAST := by
  decide

/-! ### C9: `fly_direction` on non-compass arguments -/

/-- C9: for every argument that is not one of the eight compass members —
`Direction.NONE`, `Direction.LAND`, or any string such as a direction's
`.name` — `fly_direction` falls through its `if`/`elif` chain, issues no
motion command, and leaves the position unchanged (Python `==` between a
string and an enum member is `False` and raises nothing). -/
theorem fly_direction_non_compass (a : FlyArg) (j : ℚ) (p : ℚ × ℚ)
    (h : ∀ d : Direction, isCompass d → a ≠ FlyArg.dir d) :
    flyDirectionCmds a j = [] ∧ applyCmds (flyDirectionCmds a j) p = p := by
  have hcmds : flyDirectionCmds a j = [] := by
    cases a with
    | str s => rfl
    | dir d => cases d <;> first | rfl | exact absurd rfl (h _ (by decide))
  exact ⟨hcmds, by rw [hcmds]; rfl⟩

/-- Witness for C9 at `Direction.NONE` and at the string `"NORTH"`. -/
theorem fly_direction_non_compass_witness :
    (flyDirectionCmds (FlyArg.dir Direction.NONE) 1 = [] ∧
      applyCmds (flyDirectionCmds (FlyArg.dir Direction.NONE) 1) (2, 3) = (2, 3)) ∧
    (flyDirectionCmds (FlyArg.str "NORTH") 1 = [] ∧
      applyCmds (flyDirectionCmds (FlyArg.str "NORTH") 1) (2, 3) = (2, 3)) :=
  ⟨fly_direction_non_compass (FlyArg.dir Direction.NONE) 1 (2, 3) (by decide),
   fly_direction_non_compass (FlyArg.str "NORTH") 1 (2, 3) (by intro d _ hne; cases hne)⟩

/-! ### C10: `get_average_rssi` never divides by zero -/

theorem sumAbs_nonneg (r : ℕ → ℚ) : ∀ n, 0 ≤ sumAbs r n
  | 0 => le_refl 0
  | k + 1 => add_nonneg (sumAbs_nonneg r k) (abs_nonneg (r k))

theorem sumAbs_eq_zero (r : ℕ → ℚ) :
    ∀ n, (∀ i, i < n → |r i| = 0) → sumAbs r n = 0
  | 0, _ => rfl
  | k + 1, h => by
    have hk : sumAbs r k = 0 := sumAbs_eq_zero r k fun i hi => h i (Nat.lt_succ_of_lt hi)
    have hlast : |r k| = 0 := h k (Nat.lt_succ_self k)
    simp [sumAbs, hk, hlast]

theorem abs_le_sumAbs (r : ℕ → ℚ) :
    ∀ n i, i < n → |r i| ≤ sumAbs r n
  | 0, i, hi => absurd hi (Nat.not_lt_zero i)
  | k + 1, i, hi => by
    rcases Nat.lt_succ_iff_lt_or_eq.mp hi with hlt | heq
    · calc |r i| ≤ sumAbs r k := abs_le_sumAbs r k i hlt
        _ ≤ sumAbs r k + |r k| := le_add_of_nonneg_right (abs_nonneg (r k))
    · rw [heq]
      exact le_add_of_nonneg_left (sumAbs_nonneg r k)

/-- C10: `get_average_rssi` never divides by zero.  With `num_samples = 0`
it returns 0; when every reading's absolute value is 0 the accumulated sum
is 0, the `sum != 0` guard is not taken, and it returns 0; otherwise the
guard is taken with `num_samples` provably nonzero and the result is the
sum of the absolute readings divided by `num_samples` (their mean). -/
theorem get_average_rssi_safe (r : ℕ → ℚ) (n : ℕ) :
    getAverageRssi r 0 = 0 ∧
    ((∀ i, i < n → |r i| = 0) → getAverageRssi r n = 0) ∧
    ((∃ i, i < n ∧ |r i| ≠ 0) →
      n ≠ 0 ∧ getAverageRssi r n = sumAbs r n / n) := by
  refine ⟨rfl, ?_, ?_⟩
  · intro h
    simp [getAverageRssi, sumAbs_eq_zero r n h]
  · rintro ⟨i, hi, hne⟩
    have hpos : 0 < |r i| := lt_of_le_of_ne (abs_nonneg (r i)) (Ne.symm hne)
    have hsum : 0 < sumAbs r n := lt_of_lt_of_le hpos (abs_le_sumAbs r n i hi)
    refine ⟨?_, ?_⟩
    · rintro rfl
      exact absurd hi (Nat.not_lt_zero i)
    · simp [getAverageRssi, ne_of_gt hsum]

/-- Witness for C10: two readings of magnitude 1 give mean 1 with a
nonzero sample count, and a zero-sample call returns 0. -/
theorem get_average_rssi_safe_witness :
    getAverageRssi (fun _ => 1) 0 = 0 ∧
    (2 ≠ 0 ∧ getAverageRssi (fun _ => 1) 2 = sumAbs (fun _ => 1) 2 / 2) :=
  ⟨(get_average_rssi_safe (fun _ => 1) 2).1,
   (get_average_rssi_safe (fun _ => 1) 2).2.2 ⟨0, by norm_num⟩⟩

/-! ### C1: `nine_point_sample` tracks the neighbour minimum -/

theorem npsStep_fst_le_left (acc p : ℚ × Direction) : (npsStep acc p).1 ≤ acc.1 := by
  unfold npsStep
  split
  · exact le_of_lt (by assumption)
  · exact le_refl _

theorem npsStep_fst_le_right (acc p : ℚ × Direction) : (npsStep acc p).1 ≤ p.1 := by
  unfold npsStep
  split
  · exact le_refl _
  · exact le_of_not_lt (by assumption)

theorem foldl_npsStep_fst_le_init :
    ∀ (l : List (ℚ × Direction)) (acc : ℚ × Direction),
      (l.foldl npsStep acc).1 ≤ acc.1
  | [], _ => le_refl _
  | p :: t, acc =>
    le_trans (foldl_npsStep_fst_le_init t (npsStep acc p)) (npsStep_fst_le_left acc p)

theorem foldl_npsStep_fst_le_mem :
    ∀ (l : List (ℚ × Direction)) (acc p : ℚ × Direction), p ∈ l →
      (l.foldl npsStep acc).1 ≤ p.1
  | [], _, p, hp => absurd hp (List.not_mem_nil p)
  | q :: t, acc, p, hp => by
    rcases List.mem_cons.mp hp with rfl | ht
    · exact le_trans (foldl_npsStep_fst_le_init t (npsStep acc p))
        (npsStep_fst_le_right acc p)
    · exact foldl_npsStep_fst_le_mem t (npsStep acc q) p ht

theorem foldl_npsStep_mem :
    ∀ (l : List (ℚ × Direction)) (acc : ℚ × Direction),
      l.foldl npsStep acc = acc ∨ l.foldl npsStep acc ∈ l
  | [], _ => Or.inl rfl
  | q :: t, acc => by
    rw [List.foldl_cons]
    rcases foldl_npsStep_mem t (npsStep acc q) with h | h
    · rw [h]
      unfold npsStep
      split
      · exact Or.inr (List.mem_cons_self q t)
      · exact Or.inl rfl
    · exact Or.inr (List.mem_cons.mpr (Or.inr h))

/-- The tracked best score is at most every neighbour score. -/
theorem bestOf_le (s : Fin 8 → ℚ) (j : Fin 8) : (bestOf s).1 ≤ s j := by
  fin_cases j
  · exact foldl_npsStep_fst_le_init _ _
  · exact foldl_npsStep_fst_le_mem (npsPairs s) _ (s 1, Direction.NORTH_EAST)
      (by simp [npsPairs])
  · exact foldl_npsStep_fst_le_mem (npsPairs s) _ (s 2, Direction.EAST)
      (by simp [npsPairs])
  · exact foldl_npsStep_fst_le_mem (npsPairs s) _ (s 3, Direction.SOUTH_EAST)
      (by simp [npsPairs])
  · exact foldl_npsStep_fst_le_mem (npsPairs s) _ (s 4, Direction.SOUTH)
      (by simp [npsPairs])
  · exact foldl_npsStep_fst_le_mem (npsPairs s) _ (s 5, Direction.SOUTH_WEST)
      (by simp [npsPairs])
  · exact foldl_npsStep_fst_le_mem (npsPairs s) _ (s 6, Direction.WEST)
      (by simp [npsPairs])
  · exact foldl_npsStep_fst_le_mem (npsPairs s) _ (s 7, Direction.NORTH_WEST)
      (by simp [npsPairs])

/-- The tracked best accumulator is the pair of some neighbour's score and
that neighbour's direction label. -/
theorem bestOf_eq_pair (s : Fin 8 → ℚ) : ∃ i : Fin 8, bestOf s = (s i, dirIdx i) := by
  rcases foldl_npsStep_mem (npsPairs s) (s 0, Direction.NORTH) with h | h
  · exact ⟨0, h⟩
  · simp only [npsPairs, List.mem_cons, List.not_mem_nil, or_false] at h
    rcases h with h | h | h | h | h | h | h
    · exact ⟨1, h⟩
    · exact ⟨2, h⟩
    · exact ⟨3, h⟩
    · exact ⟨4, h⟩
    · exact ⟨5, h⟩
    · exact ⟨6, h⟩
    · exact ⟨7, h⟩

/-- C1: `nine_point_sample` tracks the minimum of the eight neighbour
samples (seeded by the NORTH sample, not the centre) and returns the
direction label of that minimum when it beats the centre score strictly,
and `Direction.NONE` otherwise; in particular a flat field (every
neighbour at least the centre) yields `Direction.NONE`. -/
theorem nine_point_sample_spec (center : ℚ) (s : Fin 8 → ℚ) :
    ((∀ i : Fin 8, center ≤ s i) → ninePointSample center s = Direction.NONE) ∧
    ((∃ i : Fin 8, s i < center) →
      ∃ i : Fin 8, ninePointSample center s = dirIdx i ∧ s i < center ∧
        ∀ j : Fin 8, s i ≤ s j) := by
  obtain ⟨i0, hbest⟩ := bestOf_eq_pair s
  constructor
  · intro h
    have hnlt : ¬(bestOf s).1 < center := by
      rw [hbest]
      exact not_lt.mpr (h i0)
    simp [ninePointSample, hnlt]
  · rintro ⟨i, hi⟩
    have hlt : (bestOf s).1 < center := lt_of_le_of_lt (bestOf_le s i) hi
    refine ⟨i0, ?_, ?_, ?_⟩
    · simp only [ninePointSample, if_pos hlt]
      exact congrArg Prod.snd hbest
    · have := hlt
      rw [hbest] at this
      exact this
    · intro j
      have := bestOf_le s j
      rw [hbest] at this
      exact this

/-- Witness for C1: a flat field at score 50 yields `NONE`, and the
spec's unimodal example field yields the `NORTH` label (index 0), whose
score 40 is the strict minimum. -/
theorem nine_point_sample_spec_witness :
    ninePointSample 50 (fun _ => (50 : ℚ)) = Direction.NONE ∧
    ∃ i : Fin 8, ninePointSample 50 ![40, 45, 48, 49, 50, 50, 50, 50] = dirIdx i ∧
      (![40, 45, 48, 49, 50, 50, 50, 50] : Fin 8 → ℚ) i < 50 ∧
      ∀ j : Fin 8, (![40, 45, 48, 49, 50, 50, 50, 50] : Fin 8 → ℚ) i ≤
        (![40, 45, 48, 49, 50, 50, 50, 50] : Fin 8 → ℚ) j :=
  ⟨(nine_point_sample_spec 50 (fun _ => (50 : ℚ))).1 (fun _ => le_refl _),
   (nine_point_sample_spec 50 ![40, 45, 48, 49, 50, 50, 50, 50]).2
     ⟨0, by norm_num⟩⟩

/-! ### C7: the fixed eight-move traversal of `nine_point_sample` -/

/-- C7: the traversal of `nine_point_sample` is exactly forward, right,
back, back, left, left, forward, forward, each relative to the previous
position; composed from the centre `p` it visits the N, NE, E, SE, S, SW,
W, NW neighbours in that order, never returns to the centre, and leaves
the agent at the NW sample point — net one step left and one step forward
of the centre — when the call returns. -/
theorem nine_point_traversal (j : ℚ) (p : ℚ × ℚ) (hj : 0 < j) :
    ninePointMoves j = [Cmd.forward j, Cmd.right j, Cmd.back j, Cmd.back j,
      Cmd.left j, Cmd.left j, Cmd.forward j, Cmd.forward j] ∧
    ninePointPositions j p =
      [(p.1, p.2 + j), (p.1 + j, p.2 + j), (p.1 + j, p.2), (p.1 + j, p.2 - j),
       (p.1, p.2 - j), (p.1 - j, p.2 - j), (p.1 - j, p.2), (p.1 - j, p.2 + j)] ∧
    (∀ q ∈ ninePointPositions j p, q ≠ p) ∧
    (ninePointPositions j p).getLast? = some (p.1 - j, p.2 + j) ∧
    ninePointDrift j p = (p.1 - j, p.2 + j) := by
  have hlist : ninePointPositions j p =
      [(p.1, p.2 + j), (p.1 + j, p.2 + j), (p.1 + j, p.2), (p.1 + j, p.2 - j),
       (p.1, p.2 - j), (p.1 - j, p.2 - j), (p.1 - j, p.2), (p.1 - j, p.2 + j)] := by
    simp only [ninePointPositions, ninePointMoves, List.scanl, List.tail_cons, applyCmd,
      List.cons.injEq, Prod.mk.injEq, and_true]
    norm_num
  refine ⟨rfl, hlist, ?_, ?_, ?_⟩
  · intro q hq
    rw [hlist] at hq
    simp only [List.mem_cons, List.not_mem_nil, or_false] at hq
    rcases hq with rfl | rfl | rfl | rfl | rfl | rfl | rfl | rfl <;>
      · simp only [ne_eq, Prod.ext_iff, not_and]
        intro h1 h2
        linarith
  · rw [hlist]
    rfl
  · simp only [ninePointDrift, applyCmds, ninePointMoves, List.foldl, applyCmd,
      Prod.mk.injEq]
    constructor <;> ring

/-- Witness for C7 at the loop's actual step size 0.5 from the origin. -/
theorem nine_point_traversal_witness :
    ninePointPositions (1/2) ((0 : ℚ), (0 : ℚ)) =
      [(0, 1/2), (1/2, 1/2), (1/2, 0), (1/2, -(1/2)),
       (0, -(1/2)), (-(1/2), -(1/2)), (-(1/2), 0), (-(1/2), 1/2)] ∧
    ninePointDrift (1/2) ((0 : ℚ), (0 : ℚ)) = (-(1/2), 1/2) := by
  obtain ⟨-, h2, -, -, h5⟩ := nine_point_traversal (1/2) ((0 : ℚ), (0 : ℚ)) (by norm_num)
  rw [h2, h5]
  norm_num

/-! ### Branch characterisations of the shared loop body -/

theorem flyDirectionCmds_str (s : String) (j : ℚ) :
    flyDirectionCmds (FlyArg.str s) j = [] := rfl

/-- Flying one step in a compass direction other than `SOUTH_EAST` and
then one step in its computed reverse returns the agent to where it
started. -/
theorem fly_reverse_cancel (d : Direction) (hc : isCompass d)
    (hse : d ≠ Direction.SOUTH_EAST) (j : ℚ) (p : ℚ × ℚ) :
    applyCmds (flyDirectionCmds (FlyArg.dir (reverseDirection d)) j)
      (applyCmds (flyDirectionCmds (FlyArg.dir d) j) p) = p := by
  cases d <;> first
    | exact absurd hc (by decide)
    | exact absurd rfl hse
    | simp [flyDirectionCmds, flyArgEq, reverseDirection, Direction.value,
        Direction.ofValue, applyCmds, applyCmd]

/-- Explore branch, no improvement: the body runs `nine_point_sample`,
falls back to the string-named random direction (which issues no motion),
counts the move and keeps `previous_direction = NONE`. -/
theorem homingIter_explore_none (env : Env) (j : ℚ) (st : HomingState) (cur : ℚ)
    (h1 : st.prevDir = Direction.NONE)
    (h2 : (ninePointRun env.rssi j st).1 = Direction.NONE) :
    homingIter env j st cur =
      { st with pos := ninePointDrift j st.pos,
                calls := st.calls + 9,
                numNinePointSamples := st.numNinePointSamples + 1,
                numMoves := st.numMoves + 1,
                randCalls := st.randCalls + 1 } := by
  have h2' : (ninePointSample (env.rssi st.calls)
      fun i => env.rssi (st.calls + 1 + i.val)) = Direction.NONE := by
    simpa [ninePointRun] using h2
  simp [homingIter, ninePointRun, h1, h2', flyDirectionCmds_str, applyCmds]

/-- Explore branch with an improving direction: fly it, commit it as
`previous_direction`, count the move. -/
theorem homingIter_explore_best (env : Env) (j : ℚ) (st : HomingState) (cur : ℚ)
    (h1 : st.prevDir = Direction.NONE)
    (h2 : (ninePointRun env.rssi j st).1 ≠ Direction.NONE) :
    homingIter env j st cur =
      { st with pos := applyCmds
                  (flyDirectionCmds (FlyArg.dir (ninePointRun env.rssi j st).1) j)
                  (ninePointDrift j st.pos),
                calls := st.calls + 9,
                numNinePointSamples := st.numNinePointSamples + 1,
                prevDir := (ninePointRun env.rssi j st).1,
                numMoves := st.numMoves + 1 } := by
  have h2' : ¬(ninePointSample (env.rssi st.calls)
      fun i => env.rssi (st.calls + 1 + i.val)) = Direction.NONE := by
    simpa [ninePointRun] using h2
  simp [homingIter, ninePointRun, h1, h2']

/-- Exploit branch with regression: fly `previous_direction`, measure a
worse score, fly the computed reverse, clear `previous_direction`, and do
not count the move. -/
theorem homingIter_exploit_reg (env : Env) (j : ℚ) (st : HomingState) (cur : ℚ)
    (h1 : st.prevDir ≠ Direction.NONE)
    (h2 : env.rssi st.calls > cur) :
    homingIter env j st cur =
      { st with pos := applyCmds
                  (flyDirectionCmds (FlyArg.dir (reverseDirection st.prevDir)) j)
                  (applyCmds (flyDirectionCmds (FlyArg.dir st.prevDir) j) st.pos),
                calls := st.calls + 1,
                prevDir := Direction.NONE } := by
  simp [homingIter, h1, h2]

/-- Exploit branch without regression: fly `previous_direction`, keep it,
count the move. -/
theorem homingIter_exploit_ok (env : Env) (j : ℚ) (st : HomingState) (cur : ℚ)
    (h1 : st.prevDir ≠ Direction.NONE)
    (h2 : ¬env.rssi st.calls > cur) :
    homingIter env j st cur =
      { st with pos := applyCmds (flyDirectionCmds (FlyArg.dir st.prevDir) j) st.pos,
                calls := st.calls + 1,
                numMoves := st.numMoves + 1 } := by
  simp [homingIter, h1, h2]

/-! ### C3: regression handling in the fixed-step loop -/

/-- C3 (amended): in the fixed-step loop, when an exploit step in a
`previous_direction` other than `SOUTH_EAST` regresses (the new score
exceeds the score measured at the top of the iteration), the body flies
the computed reverse direction — restoring the position it had at the
start of the iteration — resets `previous_direction` to `NONE`, and does
not increment `num_moves`.  (For `previous_direction = SOUTH_EAST` the
computed reverse is the `NONE` sentinel, the corrective flight is a
no-op, and the position is NOT restored; see the counterexample.) -/
theorem basic_regression_restores (env : Env) (st : HomingState) (cur : ℚ)
    (hc : isCompass st.prevDir) (hse : st.prevDir ≠ Direction.SOUTH_EAST)
    (hreg : env.rssi st.calls > cur) :
    (basicIter env st cur).pos = st.pos ∧
    (basicIter env st cur).prevDir = Direction.NONE ∧
    (basicIter env st cur).numMoves = st.numMoves := by
  unfold basicIter
  rw [homingIter_exploit_reg env (1/2) st cur hc.1 hreg]
  exact ⟨fly_reverse_cancel st.prevDir hc hse (1/2) st.pos, rfl, rfl⟩

/-- Witness for C3's amended theorem: a northbound exploit step that
regresses (score 50 after a step with 40 at the top) is undone. -/
theorem basic_regression_restores_witness :
    (basicIter { rssi := fun _ => 50, rand := fun _ => 0 }
        { pos := (0, 0), prevDir := Direction.NORTH, numMoves := 3,
          numNinePointSamples := 1, calls := 4, randCalls := 0 } 40).pos = (0, 0) ∧
    (basicIter { rssi := fun _ => 50, rand := fun _ => 0 }
        { pos := (0, 0), prevDir := Direction.NORTH, numMoves := 3,
          numNinePointSamples := 1, calls := 4, randCalls := 0 } 40).prevDir =
      Direction.NONE ∧
    (basicIter { rssi := fun _ => 50, rand := fun _ => 0 }
        { pos := (0, 0), prevDir := Direction.NORTH, numMoves := 3,
          numNinePointSamples := 1, calls := 4, randCalls := 0 } 40).numMoves = 3 :=
  basic_regression_restores { rssi := fun _ => 50, rand := fun _ => 0 }
    { pos := (0, 0), prevDir := Direction.NORTH, numMoves := 3,
      numNinePointSamples := 1, calls := 4, randCalls := 0 } 40
    (by decide) (by decide) (by norm_num)

/-- Counterexample for C3 as stated: with `previous_direction =
SOUTH_EAST` and a regressing exploit step (new score 50 > 40), the
computed reverse is `Direction.NONE`, the corrective flight issues no
motion, and the committed position `(1/2, -1/2)` differs from the
position `(0, 0)` held before the step — the claim's "position is
restored" fails — although `previous_direction` is still reset and
`num_moves` is still not incremented. -/
theorem basic_regression_counterexample :
    ((50 : ℚ) > 40) ∧
    reverseDirection Direction.SOUTH_EAST = Direction.NONE ∧
    (basicIter { rssi := fun _ => 50, rand := fun _ => 0 }
        { pos := (0, 0), prevDir := Direction.SOUTH_EAST, numMoves := 0,
          numNinePointSamples := 0, calls := 0, randCalls := 0 } 40).pos =
      (1/2, -(1/2)) ∧
    ((1/2 : ℚ), -((1:ℚ)/2)) ≠ ((0 : ℚ), (0 : ℚ)) ∧
    (basicIter { rssi := fun _ => 50, rand := fun _ => 0 }
        { pos := (0, 0), prevDir := Direction.SOUTH_EAST, numMoves := 0,
          numNinePointSamples := 0, calls := 0, randCalls := 0 } 40).prevDir =
      Direction.NONE ∧
    (basicIter { rssi := fun _ => 50, rand := fun _ => 0 }
        { pos := (0, 0), prevDir := Direction.SOUTH_EAST, numMoves := 0,
          numNinePointSamples := 0, calls := 0, randCalls := 0 } 40).numMoves = 0 := by
  refine ⟨by norm_num, by decide, ?_, by norm_num, ?_, ?_⟩ <;>
    simp +decide [basicIter, homingIter, flyDirectionCmds, flyArgEq,
      reverseDirection, Direction.value, Direction.ofValue, applyCmds, applyCmd]

/-! ### C4: the random-direction fallback is a silent no-op -/

/-- C4 fails on the code: when `nine_point_sample` returns `NONE`, the
loop passes `Direction(randint(1,8)).name` — a string, not a `Direction`
member — to `fly_direction`, so NO motion command is issued for any
possible random draw: the agent stays at the traversal's drift end
instead of moving one step in a random compass direction, while
`num_moves` is still incremented and `previous_direction` stays `NONE`. -/
theorem random_fallback_is_noop (env : Env) (st : HomingState) (cur : ℚ)
    (h1 : st.prevDir = Direction.NONE)
    (h2 : (ninePointRun env.rssi (1/2) st).1 = Direction.NONE) :
    (∀ d : Direction, flyDirectionCmds (FlyArg.str d.name) (1/2) = []) ∧
    (basicIter env st cur).pos = ninePointDrift (1/2) st.pos ∧
    (basicIter env st cur).numMoves = st.numMoves + 1 ∧
    (basicIter env st cur).prevDir = Direction.NONE := by
  unfold basicIter
  rw [homingIter_explore_none env (1/2) st cur h1 h2]
  exact ⟨fun d => rfl, rfl, rfl, h1⟩

/-- Witness for C4's no-op theorem: a flat score field (constant 100)
makes the explorer return `NONE`; the body then commits a counted but
motionless "random" move. -/
theorem random_fallback_is_noop_witness :
    (basicIter { rssi := fun _ => 100, rand := fun _ => 0 }
        { pos := (0, 0), prevDir := Direction.NONE, numMoves := 0,
          numNinePointSamples := 0, calls := 0, randCalls := 0 } 100).pos =
      ninePointDrift (1/2) (0, 0) ∧
    (basicIter { rssi := fun _ => 100, rand := fun _ => 0 }
        { pos := (0, 0), prevDir := Direction.NONE, numMoves := 0,
          numNinePointSamples := 0, calls := 0, randCalls := 0 } 100).numMoves = 1 ∧
    (basicIter { rssi := fun _ => 100, rand := fun _ => 0 }
        { pos := (0, 0), prevDir := Direction.NONE, numMoves := 0,
          numNinePointSamples := 0, calls := 0, randCalls := 0 } 100).prevDir =
      Direction.NONE :=
  (random_fallback_is_noop { rssi := fun _ => 100, rand := fun _ => 0 }
    { pos := (0, 0), prevDir := Direction.NONE, numMoves := 0,
      numNinePointSamples := 0, calls := 0, randCalls := 0 } 100 rfl
    (by simp +decide [ninePointRun, ninePointSample, bestOf, npsPairs, npsStep])).2

/-! ### C5: the fixed-step loop terminates within its budget -/

theorem homingIter_numMoves_le (env : Env) (j : ℚ) (st : HomingState) (cur : ℚ) :
    (homingIter env j st cur).numMoves ≤ st.numMoves + 1 := by
  by_cases h1 : st.prevDir = Direction.NONE
  · by_cases h2 : (ninePointRun env.rssi j st).1 = Direction.NONE
    · rw [homingIter_explore_none env j st cur h1 h2]
    · rw [homingIter_explore_best env j st cur h1 h2]
  · by_cases h2 : env.rssi st.calls > cur
    · rw [homingIter_exploit_reg env j st cur h1 h2]
      exact Nat.le_succ _
    · rw [homingIter_exploit_ok env j st cur h1 h2]

/-- Every iteration of the shared body either commits a move or clears
`previous_direction`, so the loop measure strictly decreases. -/
theorem homingIter_measure_lt (env : Env) (j : ℚ) (st : HomingState) (cur : ℚ)
    (hm : st.numMoves < 20) :
    stepMeasure (homingIter env j st cur) < stepMeasure st := by
  by_cases h1 : st.prevDir = Direction.NONE
  · by_cases h2 : (ninePointRun env.rssi j st).1 = Direction.NONE
    · rw [homingIter_explore_none env j st cur h1 h2]
      simp [stepMeasure, h1]
      try omega
    · rw [homingIter_explore_best env j st cur h1 h2]
      simp [stepMeasure, h1, h2]
      try omega
  · by_cases h2 : env.rssi st.calls > cur
    · rw [homingIter_exploit_reg env j st cur h1 h2]
      simp [stepMeasure, h1]
      try omega
    · rw [homingIter_exploit_ok env j st cur h1 h2]
      simp [stepMeasure, h1]
      try omega

/-- With fuel exceeding the loop measure, the fixed-step loop reaches one
of its two exits. -/
theorem basicLoop_total (env : Env) :
    ∀ fuel st, stepMeasure st < fuel → ∃ r, basicLoop env fuel st = some r := by
  intro fuel
  induction fuel with
  | zero => exact fun st h => absurd h (Nat.not_lt_zero _)
  | succ n ih =>
    intro st h
    by_cases hm : st.numMoves < 20
    · by_cases hr : env.rssi st.calls ≤ 30
      · exact ⟨(Outcome.arrived, { st with calls := st.calls + 1 }),
          by simp [basicLoop, hm, hr]⟩
      · have hlt : stepMeasure
            (basicIter env { st with calls := st.calls + 1 } (env.rssi st.calls)) < n := by
          have hstep := homingIter_measure_lt env (1/2)
            { st with calls := st.calls + 1 } (env.rssi st.calls) hm
          have heq : stepMeasure { st with calls := st.calls + 1 } = stepMeasure st := rfl
          unfold basicIter
          omega
        obtain ⟨r, hrec⟩ := ih _ hlt
        exact ⟨r, by simpa [basicLoop, hm, hr] using hrec⟩
    · exact ⟨(Outcome.exhausted, st), by simp [basicLoop, hm]⟩

/-- Exit invariants of the fixed-step loop: the committed-move budget is
never exceeded, the exhausted exit happens exactly at budget, and the
arrived exit happens exactly when the last top-of-iteration measurement
reached the landing threshold. -/
theorem basicLoop_inv (env : Env) :
    ∀ fuel st out stf, basicLoop env fuel st = some (out, stf) → st.numMoves ≤ 20 →
      stf.numMoves ≤ 20 ∧ (out = Outcome.exhausted → stf.numMoves = 20) ∧
      (out = Outcome.arrived → 1 ≤ stf.calls ∧ env.rssi (stf.calls - 1) ≤ 30) := by
  intro fuel
  induction fuel with
  | zero => intro st out stf h; exact absurd h (by simp [basicLoop])
  | succ n ih =>
    intro st out stf h hle
    by_cases hm : st.numMoves < 20
    · by_cases hr : env.rssi st.calls ≤ 30
      · simp only [basicLoop, if_pos hm, if_pos hr, Option.some.injEq, Prod.mk.injEq] at h
        obtain ⟨hout, hstf⟩ := h
        refine ⟨?_, ?_, ?_⟩
        · rw [← hstf]
          exact le_of_lt hm
        · intro habs
          rw [← hout] at habs
          cases habs
        · intro _
          rw [← hstf]
          exact ⟨Nat.le_add_left 1 st.calls, by simpa using hr⟩
      · simp only [basicLoop, if_pos hm, if_neg hr] at h
        refine ih _ _ _ h ?_
        have hmle := homingIter_numMoves_le env (1/2)
          { st with calls := st.calls + 1 } (env.rssi st.calls)
        have hb : ({ st with calls := st.calls + 1 } : HomingState).numMoves =
            st.numMoves := rfl
        unfold basicIter
        omega
    · simp only [basicLoop, if_neg hm, Option.some.injEq, Prod.mk.injEq] at h
      obtain ⟨hout, hstf⟩ := h
      refine ⟨?_, ?_, ?_⟩
      · rw [← hstf]
        exact hle
      · intro _
        rw [← hstf]
        omega
      · intro habs
        rw [← hout] at habs
        cases habs

/-- C5: for every sequence of sensor scores, the fixed-step loop
terminates (with fuel exceeding its worst-case 40 iterations): it exits
`ARRIVED` as soon as the top-of-iteration score is at most the landing
threshold 30 — immediately, with no further body execution — and
otherwise exits `EXHAUSTED` exactly when `num_moves` reaches the budget
20; the committed-move count never exceeds 20, and the corrective
reversal performed on a regressing exploit step is never counted. -/
theorem basic_homing_terminates (env : Env) (fuel : ℕ) (st : HomingState)
    (hmoves : st.numMoves = 0) (hprev : st.prevDir = Direction.NONE)
    (hfuel : 40 < fuel) :
    (∃ out stf, basicLoop env fuel st = some (out, stf) ∧ stf.numMoves ≤ 20 ∧
      (out = Outcome.exhausted → stf.numMoves = 20) ∧
      (out = Outcome.arrived → 1 ≤ stf.calls ∧ env.rssi (stf.calls - 1) ≤ 30)) ∧
    (∀ s : HomingState, s.numMoves < 20 → env.rssi s.calls ≤ 30 →
      basicLoop env fuel s = some (Outcome.arrived, { s with calls := s.calls + 1 })) ∧
    (∀ (s : HomingState) (c : ℚ), s.prevDir ≠ Direction.NONE → env.rssi s.calls > c →
      (basicIter env s c).numMoves = s.numMoves) := by
  obtain ⟨n, rfl⟩ : ∃ n, fuel = n + 1 := ⟨fuel - 1, by omega⟩
  refine ⟨?_, ?_, ?_⟩
  · have hms : stepMeasure st < n + 1 := by
      simp only [stepMeasure, hmoves, hprev, if_pos]
      omega
    obtain ⟨⟨out, stf⟩, hsome⟩ := basicLoop_total env (n + 1) st hms
    obtain ⟨ha, hb, hc⟩ := basicLoop_inv env (n + 1) st out stf hsome (by omega)
    exact ⟨out, stf, hsome, ha, hb, hc⟩
  · intro s hm hr
    simp [basicLoop, hm, hr]
  · intro s c h1 h2
    unfold basicIter
    rw [homingIter_exploit_reg env (1/2) s c h1 h2]

/-- Witness for C5 on the constant score field 100 (never at threshold):
the loop from a fresh state yields a terminal outcome within budget. -/
theorem basic_homing_terminates_witness :
    ∃ out stf,
      basicLoop { rssi := fun _ => 100, rand := fun _ => 0 } 41
        { pos := (0, 0), prevDir := Direction.NONE, numMoves := 0,
          numNinePointSamples := 0, calls := 0, randCalls := 0 } = some (out, stf) ∧
      stf.numMoves ≤ 20 ∧
      (out = Outcome.exhausted → stf.numMoves = 20) ∧
      (out = Outcome.arrived → 1 ≤ stf.calls ∧
        (fun _ => (100 : ℚ)) (stf.calls - 1) ≤ 30) :=
  (basic_homing_terminates { rssi := fun _ => 100, rand := fun _ => 0 } 41
    { pos := (0, 0), prevDir := Direction.NONE, numMoves := 0,
      numNinePointSamples := 0, calls := 0, randCalls := 0 } rfl rfl
    (by norm_num)).1

/-! ### C6: the fine-approach sub-phase of the variable-step loop -/

/-- C6 (amended): when the variable-step loop's top-of-iteration score
reaches the landing threshold it hands over to the fine-approach
sub-phase and exits with its result (arrived).  The sub-phase: with
`previous_direction = NONE` on entry it returns the state unchanged;
otherwise each round flies one 0.1-unit step in `previous_direction` and
re-measures against the score from sub-phase ENTRY — on strict
improvement it increments `num_moves` and continues, and otherwise it
flies one 0.1-unit step in the computed reverse direction and exits,
which restores the pre-step position whenever `previous_direction` is not
`SOUTH_EAST` (for `SOUTH_EAST` the computed reverse is `NONE` and the
undo is a motionless no-op; see the counterexample). -/
theorem ranged_fine_approach_spec (env : Env) (entry : ℚ) (fuel ifuel : ℕ)
    (st : HomingState) :
    (st.prevDir = Direction.NONE → fineApproach env.rssi entry (fuel + 1) st = some st) ∧
    (st.prevDir ≠ Direction.NONE →
      (env.rssi st.calls < entry →
        fineApproach env.rssi entry (fuel + 1) st =
          fineApproach env.rssi entry fuel
            { st with
                pos := applyCmds (flyDirectionCmds (FlyArg.dir st.prevDir) (1/10)) st.pos,
                calls := st.calls + 1,
                numMoves := st.numMoves + 1 }) ∧
      (¬env.rssi st.calls < entry → isCompass st.prevDir →
        st.prevDir ≠ Direction.SOUTH_EAST →
        fineApproach env.rssi entry (fuel + 1) st = some { st with calls := st.calls + 1 })) ∧
    (st.numMoves < 20 → env.rssi st.calls ≤ 30 →
      rangedLoop env ifuel (fuel + 1) st =
        Option.map (fun s2 => (Outcome.arrived, s2))
          (fineApproach env.rssi (env.rssi st.calls) ifuel { st with calls := st.calls + 1 })) := by
  refine ⟨?_, ?_, ?_⟩
  · intro h
    simp [fineApproach, h]
  · intro h1
    constructor
    · intro hlt
      simp [fineApproach, h1, hlt]
    · intro hnlt hc hse
      have hcancel := fly_reverse_cancel st.prevDir hc hse (1/10) st.pos
      simp [fineApproach, h1, hnlt]
      simpa using hcancel
  · intro hm hr
    simp only [rangedLoop, if_pos hm, if_pos hr]
    cases hfa : fineApproach env.rssi (env.rssi st.calls) ifuel
        { st with calls := st.calls + 1 } with
    | none => simp [hfa]
    | some s2 => simp [hfa]

/-- Witness for C6's amended theorem: immediate exit on a `NONE` entry
direction, and a committed improving 0.1-step round for a northbound
entry direction. -/
theorem ranged_fine_approach_spec_witness :
    fineApproach (fun _ => (20 : ℚ)) 25 3
      { pos := (0, 0), prevDir := Direction.NONE, numMoves := 5,
        numNinePointSamples := 0, calls := 7, randCalls := 0 } =
      some { pos := (0, 0), prevDir := Direction.NONE, numMoves := 5,
             numNinePointSamples := 0, calls := 7, randCalls := 0 } ∧
    fineApproach (fun _ => (20 : ℚ)) 25 3
      { pos := (0, 0), prevDir := Direction.NORTH, numMoves := 5,
        numNinePointSamples := 0, calls := 7, randCalls := 0 } =
      fineApproach (fun _ => (20 : ℚ)) 25 2
        { pos := applyCmds (flyDirectionCmds (FlyArg.dir Direction.NORTH) (1/10)) (0, 0),
          prevDir := Direction.NORTH, numMoves := 6,
          numNinePointSamples := 0, calls := 8, randCalls := 0 } :=
  ⟨(ranged_fine_approach_spec { rssi := fun _ => 20, rand := fun _ => 0 } 25 2 0
      { pos := (0, 0), prevDir := Direction.NONE, numMoves := 5,
        numNinePointSamples := 0, calls := 7, randCalls := 0 }).1 rfl,
   ((ranged_fine_approach_spec { rssi := fun _ => 20, rand := fun _ => 0 } 25 2 0
      { pos := (0, 0), prevDir := Direction.NORTH, numMoves := 5,
        numNinePointSamples := 0, calls := 7, randCalls := 0 }).2.1
      (by decide)).1 (by norm_num)⟩

/-- Counterexample for C6 as stated: entering fine approach with
`previous_direction = SOUTH_EAST` and a non-improving re-measure (50 is
not below the entry score 40), the sub-phase exits after its 0.1-unit
`SOUTH_EAST` step WITHOUT the claimed 0.1-unit step in the opposite
direction: the computed reverse is the sentinel `NONE`, whose flight
issues no motion, so the exit position `(1/10, -1/10)` differs from the
pre-step position `(0, 0)`. -/
theorem ranged_fine_approach_counterexample :
    ¬((50 : ℚ) < 40) ∧
    reverseDirection Direction.SOUTH_EAST = Direction.NONE ∧
    flyDirectionCmds (FlyArg.dir Direction.NONE) (1/10) = [] ∧
    fineApproach (fun _ => (50 : ℚ)) 40 2
      { pos := (0, 0), prevDir := Direction.SOUTH_EAST, numMoves := 0,
        numNinePointSamples := 0, calls := 0, randCalls := 0 } =
      some { pos := (1/10, -(1/10)), prevDir := Direction.SOUTH_EAST,
             numMoves := 0, numNinePointSamples := 0, calls := 1, randCalls := 0 } ∧
    ((1/10 : ℚ), -((1 : ℚ)/10)) ≠ ((0 : ℚ), (0 : ℚ)) := by
  refine ⟨by norm_num, by decide, rfl, ?_, by norm_num⟩
  simp +decide [fineApproach, flyDirectionCmds, flyArgEq, reverseDirection,
    Direction.value, Direction.ofValue, applyCmds, applyCmd]

/-! ### C8: sampling with an absent beacon -/

theorem sumAbsOpt_error (r : ℕ → Option ℚ) :
    ∀ n i, i < n → r i = none → sumAbsOpt r n = Except.error ()
  | 0, i, hi, _ => absurd hi (Nat.not_lt_zero i)
  | k + 1, i, hi, hnone => by
    rcases Nat.lt_succ_iff_lt_or_eq.mp hi with hlt | heq
    · have hk := sumAbsOpt_error r k i hlt hnone
      simp [sumAbsOpt, hk]
    · rw [heq] at hnone
      cases hsum : sumAbsOpt r k with
      | error e => simp [sumAbsOpt, hsum]
      | ok s => simp [sumAbsOpt, hsum, hnone, absOpt]

/-- C8 fails on the code: when the Bluetooth beacon is absent,
`get_drone_rssi` returns `None` and `get_average_rssi` applies `abs` to
it, so the whole sampling call aborts with the `TypeError` crash (the
`Except.error` of the embedding) instead of a typed outcome. -/
theorem get_average_rssi_crashes_on_missing (r : ℕ → Option ℚ) (n i : ℕ)
    (hi : i < n) (hnone : r i = none) :
    getAverageRssiOpt r n = Except.error () := by
  unfold getAverageRssiOpt
  rw [sumAbsOpt_error r n i hi hnone]

/-- Witness for C8's crash theorem: ten samples with the beacon absent on
the first read crash. -/
theorem get_average_rssi_crashes_on_missing_witness :
    getAverageRssiOpt (fun _ => none) 10 = Except.error () :=
  get_average_rssi_crashes_on_missing (fun _ => none) 10 0 (by norm_num) rfl

end Homing

